import Mathlib

/-!
Verification of the neon pageserver slice: the WAL-redo applier
(pageserver/src/walredo.rs), the WAL-receiver connection manager
(pageserver/src/walreceiver/connection_manager.rs) and the background
process supervisor (control_plane/src/background_process.rs), shallowly
embedded in Lean.

Modelling conventions:
- Byte strings (Bytes, BytesMut, pages) are lists of naturals, each < 256
  where the code guarantees it; machine arithmetic is explicit with mod.
- Rust panics (assert!, out-of-bounds indexing) are a distinct failure
  value, separate from the WalRedoError variants the code returns.
- Wall-clock instants (chrono NaiveDateTime) are integers counting
  milliseconds; std Durations are naturals in milliseconds.  Subtraction
  of instants followed by to_std succeeds exactly when the difference is
  non-negative, matching chrono.
- f64 backoff values are modelled as rationals; the multiply / min / max
  structure of the code is preserved exactly.
-/

namespace Neon

/-! ## WAL records and the in-process redo path (walredo.rs) -/

/-- Postgres page size, postgres_ffi BLCKSZ. -/
def BLCKSZ : Nat := 8192

/-- pg_constants CLOG_XACTS_PER_BYTE. -/
def CLOG_XACTS_PER_BYTE : Nat := 4

/-- pg_constants CLOG_XACTS_PER_PAGE = BLCKSZ * CLOG_XACTS_PER_BYTE. -/
def CLOG_XACTS_PER_PAGE : Nat := BLCKSZ * CLOG_XACTS_PER_BYTE

/-- pg_constants CLOG_BITS_PER_XACT. -/
def CLOG_BITS_PER_XACT : Nat := 2

/-- pg_constants CLOG_XACT_BITMASK = (1 << CLOG_BITS_PER_XACT) - 1. -/
def CLOG_XACT_BITMASK : Nat := (1 <<< CLOG_BITS_PER_XACT) - 1

/-- pg_constants TRANSACTION_STATUS_COMMITTED. -/
def TRANSACTION_STATUS_COMMITTED : Nat := 1

/-- pg_constants TRANSACTION_STATUS_ABORTED. -/
def TRANSACTION_STATUS_ABORTED : Nat := 2

/-- pg_constants SLRU_PAGES_PER_SEGMENT. -/
def SLRU_PAGES_PER_SEGMENT : Nat := 32

/-- pg_constants MAXALIGN_SIZE_OF_PAGE_HEADER_DATA (page header size, maxaligned). -/
def MAXALIGN_SIZE_OF_PAGE_HEADER_DATA : Nat := 24

/-- relfile_utils VISIBILITYMAP_FORKNUM. -/
def VISIBILITYMAP_FORKNUM : Nat := 2

/-- Modelled from the spec: visibility-map geometry.  Bits per heap block in
the visibility map; the map byte/offset derivations below implement the
standard heap-to-VM mapping named in the spec (pg_constants
HEAPBLOCKS_PER_BYTE, HEAPBLOCKS_PER_PAGE are not part of src/). -/
def HEAPBLOCKS_PER_BYTE : Nat := 4

/-- Modelled from the spec: usable visibility-map bytes per page. -/
def VM_MAPSIZE : Nat := BLCKSZ - MAXALIGN_SIZE_OF_PAGE_HEADER_DATA

/-- Modelled from the spec: heap blocks covered by one visibility-map page. -/
def HEAPBLOCKS_PER_PAGE : Nat := VM_MAPSIZE * HEAPBLOCKS_PER_BYTE

/-- Modelled from the spec: pg_constants HEAPBLK_TO_MAPBLOCK. -/
def HEAPBLK_TO_MAPBLOCK (x : Nat) : Nat := x / HEAPBLOCKS_PER_PAGE

/-- Modelled from the spec: pg_constants HEAPBLK_TO_MAPBYTE. -/
def HEAPBLK_TO_MAPBYTE (x : Nat) : Nat := (x % HEAPBLOCKS_PER_PAGE) / HEAPBLOCKS_PER_BYTE

/-- Modelled from the spec: pg_constants HEAPBLK_TO_OFFSET, the bit shift of a
heap block inside its map byte (2 bits per heap block). -/
def HEAPBLK_TO_OFFSET (x : Nat) : Nat := (x % HEAPBLOCKS_PER_BYTE) * 2

/-- pg_constants MULTIXACT_OFFSETS_PER_PAGE = BLCKSZ / 4. -/
def MULTIXACT_OFFSETS_PER_PAGE : Nat := BLCKSZ / 4

/-- pg_constants MXACT_MEMBER_BITS_PER_XACT. -/
def MXACT_MEMBER_BITS_PER_XACT : Nat := 8

/-- Modelled from the spec: multixact member-group geometry (postgres_ffi v14
nonrelfile_utils constants; 4 members per group, 4 flag bytes + 4*4 member
bytes per group). -/
def MULTIXACT_MEMBERS_PER_MEMBERGROUP : Nat := 4

/-- Modelled from the spec: bytes per multixact member group. -/
def MULTIXACT_MEMBERGROUP_SIZE : Nat := 4 * 4 + 4

/-- Modelled from the spec: member groups per multixact-members page. -/
def MULTIXACT_MEMBERGROUPS_PER_PAGE : Nat := BLCKSZ / MULTIXACT_MEMBERGROUP_SIZE

/-- pg_constants MULTIXACT_MEMBERS_PER_PAGE. -/
def MULTIXACT_MEMBERS_PER_PAGE : Nat :=
  MULTIXACT_MEMBERGROUPS_PER_PAGE * MULTIXACT_MEMBERS_PER_MEMBERGROUP

/-- Modelled from the spec: postgres_ffi v14 mx_offset_to_flags_offset. -/
def mx_offset_to_flags_offset (off : Nat) : Nat :=
  ((off % MULTIXACT_MEMBERS_PER_PAGE) / MULTIXACT_MEMBERS_PER_MEMBERGROUP)
    * MULTIXACT_MEMBERGROUP_SIZE

/-- Modelled from the spec: postgres_ffi v14 mx_offset_to_flags_bitshift. -/
def mx_offset_to_flags_bitshift (off : Nat) : Nat :=
  (off % MULTIXACT_MEMBERS_PER_MEMBERGROUP) * MXACT_MEMBER_BITS_PER_XACT

/-- Modelled from the spec: postgres_ffi v14 mx_offset_to_member_offset. -/
def mx_offset_to_member_offset (off : Nat) : Nat :=
  mx_offset_to_flags_offset off + 4
    + (off % MULTIXACT_MEMBERS_PER_MEMBERGROUP) * 4

/-- An LSN, a u64 in the source (utils::lsn::Lsn). -/
abbrev Lsn := Nat

/-- Lsn::INVALID is Lsn(0). -/
def Lsn.INVALID : Lsn := 0

/-- pageserver_api reltag::RelTag: identifies a relation fork. -/
structure RelTag where
  spcnode : Nat
  dbnode : Nat
  relnode : Nat
  forknum : Nat
deriving DecidableEq, Repr

/-- pageserver_api reltag::SlruKind. -/
inductive SlruKind where
  | Clog
  | MultiXactOffsets
  | MultiXactMembers
deriving DecidableEq, Repr

/-- walrecord MultiXactMember: a (xid, status) pair of a multixact. -/
structure MultiXactMember where
  xid : Nat
  status : Nat
deriving DecidableEq, Repr

/-- walrecord::NeonWalRecord, the tagged union of WAL record variants.
The postgres variant carries a raw Postgres WAL payload and a will-init
flag; the rest are the structured in-process variants. -/
inductive NeonWalRecord where
  | postgres (will_init : Bool) (rec : List Nat)
  | clearVisibilityMapFlags
      (new_heap_blkno : Option Nat) (old_heap_blkno : Option Nat) (flags : Nat)
  | clogSetCommitted (xids : List Nat) (timestamp : Int)
  | clogSetAborted (xids : List Nat)
  | multixactOffsetCreate (mid : Nat) (moff : Nat)
  | multixactMembersCreate (moff : Nat) (members : List MultiXactMember)
deriving DecidableEq, Repr

/-- walredo.rs can_apply_in_neon: only the opaque Postgres variant must go to
the external wal-redo process; everything else is handled in-process. -/
def can_apply_in_neon (rec : NeonWalRecord) : Bool :=
  match rec with
  | .postgres _ _ => false
  | _ => true

/-- walredo.rs WalRedoError. -/
inductive WalRedoError where
  | IoError
  | InvalidState
  | InvalidRequest
  | InvalidRecord
deriving DecidableEq, Repr

/-- Outcome domain of the redo functions: either a WalRedoError that the code
returns, or a Rust panic (a failed assert! or an out-of-bounds index). -/
inductive RedoFailure where
  | err (e : WalRedoError)
  | panic
deriving DecidableEq, Repr

/-- A page image: a byte string. -/
abbrev BytePage := List Nat

/-- Key→block translators (pgdatadir_mapping::key_to_rel_block and
key_to_slru_block).  They are outside the specified slice, referenced only
through this interface; the claims quantify over the translation. -/
structure KeyModel (Key : Type) where
  key_to_rel_block : Key → Except Unit (RelTag × Nat)
  key_to_slru_block : Key → Except Unit (SlruKind × Nat × Nat)

/-- Masked byte write: clear the bits of the complemented mask, then or in the
value.  The core of the 2-bit status updates in the CLOG and multixact paths. -/
def maskedWrite (M V b : Nat) : Nat := (b &&& M) ||| V

/-- CLOG byte index of a transaction id within its page. -/
def clogByteno (xid : Nat) : Nat := (xid % CLOG_XACTS_PER_PAGE) / CLOG_XACTS_PER_BYTE

/-- CLOG bit shift of a transaction id within its byte. -/
def clogBshift (xid : Nat) : Nat := (xid % CLOG_XACTS_PER_BYTE) * CLOG_BITS_PER_XACT

/-- The update transaction_id_set_status performs on the byte holding xid:
clear the 2-bit field at the xid's shift (u8 complement of the shifted
bitmask) and or in the shifted status. -/
def clogStepByte (status xid b : Nat) : Nat :=
  maskedWrite (255 ^^^ ((CLOG_XACT_BITMASK <<< clogBshift xid) % 256))
    ((status <<< clogBshift xid) % 256) b

/-- Modelled from the spec: postgres_ffi v14 transaction_id_set_status (not in
src/): set the 2-bit status field of xid on a CLOG page, via the standard
CLOG layout.  Out-of-bounds indexing is a panic, returned as none. -/
def transaction_id_set_status (xid status : Nat) (page : BytePage) : Option BytePage :=
  let byteno := clogByteno xid
  match page[byteno]? with
  | none => none
  | some b => some (page.set byteno (clogStepByte status xid b))

/-- Write a u32 little-endian at a byte offset; none models the panic of
LittleEndian::write_u32 on a short slice. -/
def write_u32_le (page : BytePage) (off v : Nat) : Option BytePage :=
  if off + 4 ≤ page.length then
    some ((((page.set off (v % 256)).set (off + 1) (v / 256 % 256)).set
      (off + 2) (v / 65536 % 256)).set (off + 3) (v / 16777216 % 256))
  else none

/-- Read a u32 little-endian at a byte offset; none models the panic of
LittleEndian::read_u32 on a short slice. -/
def read_u32_le (page : BytePage) (off : Nat) : Option Nat :=
  match page[off]?, page[off + 1]?, page[off + 2]?, page[off + 3]? with
  | some b0, some b1, some b2, some b3 =>
      some (b0 + b1 * 256 + b2 * 65536 + b3 * 16777216)
  | _, _, _, _ => none

/-- Per-heap-block step of the ClearVisibilityMapFlags arm of
apply_record_neon: compute the VM block, byte and bit offset of the heap
block, assert the VM block matches (assert! map_block == blknum), and clear
the flag bits in the map byte.  none is a panic. -/
def vm_clear_bits (blknum flags heap_blkno : Nat) (page : BytePage) : Option BytePage :=
  let map_block := HEAPBLK_TO_MAPBLOCK heap_blkno
  let map_byte := HEAPBLK_TO_MAPBYTE heap_blkno
  let map_offset := HEAPBLK_TO_OFFSET heap_blkno
  if map_block = blknum then
    let idx := MAXALIGN_SIZE_OF_PAGE_HEADER_DATA + map_byte
    match page[idx]? with
    | none => none
    | some b => some (page.set idx (b &&& (255 ^^^ ((flags <<< map_offset) % 256))))
  else none

/-- The xid loop of the ClogSetCommitted / ClogSetAborted arms of
apply_record_neon: for each xid check the expected segment and block
(assert!), then set its 2-bit status.  none is a panic. -/
def clog_set_statuses (status segno blknum : Nat) :
    List Nat → BytePage → Option BytePage
  | [], page => some page
  | xid :: rest, page =>
      let pageno := xid / CLOG_XACTS_PER_PAGE
      if segno = pageno / SLRU_PAGES_PER_SEGMENT ∧ blknum = pageno % SLRU_PAGES_PER_SEGMENT then
        match transaction_id_set_status xid status page with
        | none => none
        | some page1 => clog_set_statuses status segno blknum rest page1
      else none

/-- Big-endian bytes of an i64, as produced by i64::to_be_bytes. -/
def i64_to_be_bytes (t : Int) : List Nat :=
  let n := (t % (18446744073709551616 : Int)).toNat
  [n / 72057594037927936 % 256, n / 281474976710656 % 256,
   n / 1099511627776 % 256, n / 4294967296 % 256,
   n / 16777216 % 256, n / 65536 % 256, n / 256 % 256, n % 256]

/-- First half of the timestamp step at the end of the ClogSetCommitted arm
of apply_record_neon: truncate an existing trailing 8-byte timestamp if the
page is BLCKSZ+8 long. -/
def clog_timestamp_truncate (page : BytePage) : BytePage :=
  if page.length = BLCKSZ + 8 then page.take BLCKSZ else page

/-- The timestamp step at the end of the ClogSetCommitted arm of
apply_record_neon: truncate an existing trailing 8-byte timestamp if the
page is BLCKSZ+8 long, then append the big-endian timestamp if the page is
exactly BLCKSZ long; any other length only warns. -/
def clog_timestamp_adjust (timestamp : Int) (page : BytePage) : BytePage :=
  if (clog_timestamp_truncate page).length = BLCKSZ then
    clog_timestamp_truncate page ++ i64_to_be_bytes timestamp
  else clog_timestamp_truncate page

/-- The member loop of the MultixactMembersCreate arm of apply_record_neon. -/
def multixact_members_apply (segno blknum moff : Nat) (members : List MultiXactMember)
    (page : BytePage) : Option BytePage :=
  members.enum.foldlM (fun pg im =>
    let offset := moff + im.1
    let pageno := offset / MULTIXACT_MEMBERS_PER_PAGE
    let memberoff := mx_offset_to_member_offset offset
    let flagsoff := mx_offset_to_flags_offset offset
    let bshift := mx_offset_to_flags_bitshift offset
    if segno = pageno / SLRU_PAGES_PER_SEGMENT ∧ blknum = pageno % SLRU_PAGES_PER_SEGMENT then
      match read_u32_le pg flagsoff with
      | none => none
      | some flagsval =>
          let flagsval1 := flagsval &&&
            (4294967295 ^^^ ((((1 <<< MXACT_MEMBER_BITS_PER_XACT) - 1) <<< bshift) % 4294967296))
          let flagsval2 := flagsval1 ||| ((im.2.status <<< bshift) % 4294967296)
          match write_u32_le pg flagsoff flagsval2 with
          | none => none
          | some pg1 => write_u32_le pg1 memberoff im.2.xid
    else none) page

/-- walredo.rs apply_record_neon: apply one structured record to a page in
process.  The opaque Postgres variant is a misroute (InvalidRequest); a key
that does not translate to the expected block category is InvalidRecord;
failed contract assertions and out-of-bounds accesses are panics. -/
def apply_record_neon {Key : Type} (km : KeyModel Key) (key : Key)
    (page : BytePage) (record : NeonWalRecord) : Except RedoFailure BytePage :=
  match record with
  | .postgres _ _ => .error (.err .InvalidRequest)
  | .clearVisibilityMapFlags new_heap_blkno old_heap_blkno flags =>
      match km.key_to_rel_block key with
      | .error _ => .error (.err .InvalidRecord)
      | .ok (rel, blknum) =>
          if rel.forknum = VISIBILITYMAP_FORKNUM then
            let step1 : Option BytePage :=
              match new_heap_blkno with
              | none => some page
              | some hb => vm_clear_bits blknum flags hb page
            match step1 with
            | none => .error .panic
            | some page1 =>
                match old_heap_blkno with
                | none => .ok page1
                | some hb =>
                    match vm_clear_bits blknum flags hb page1 with
                    | none => .error .panic
                    | some page2 => .ok page2
          else .error .panic
  | .clogSetCommitted xids timestamp =>
      match km.key_to_slru_block key with
      | .error _ => .error (.err .InvalidRecord)
      | .ok (kind, segno, blknum) =>
          if kind = SlruKind.Clog then
            match clog_set_statuses TRANSACTION_STATUS_COMMITTED segno blknum xids page with
            | none => .error .panic
            | some page1 => .ok (clog_timestamp_adjust timestamp page1)
          else .error .panic
  | .clogSetAborted xids =>
      match km.key_to_slru_block key with
      | .error _ => .error (.err .InvalidRecord)
      | .ok (kind, segno, blknum) =>
          if kind = SlruKind.Clog then
            match clog_set_statuses TRANSACTION_STATUS_ABORTED segno blknum xids page with
            | none => .error .panic
            | some page1 => .ok page1
          else .error .panic
  | .multixactOffsetCreate mid moff =>
      match km.key_to_slru_block key with
      | .error _ => .error (.err .InvalidRecord)
      | .ok (kind, segno, blknum) =>
          if kind = SlruKind.MultiXactOffsets then
            let pageno := mid / MULTIXACT_OFFSETS_PER_PAGE
            let entryno := mid % MULTIXACT_OFFSETS_PER_PAGE
            let offset := entryno * 4
            if segno = pageno / SLRU_PAGES_PER_SEGMENT ∧
                blknum = pageno % SLRU_PAGES_PER_SEGMENT then
              match write_u32_le page offset moff with
              | none => .error .panic
              | some page1 => .ok page1
            else .error .panic
          else .error .panic
  | .multixactMembersCreate moff members =>
      match km.key_to_slru_block key with
      | .error _ => .error (.err .InvalidRecord)
      | .ok (kind, segno, blknum) =>
          if kind = SlruKind.MultiXactMembers then
            match multixact_members_apply segno blknum moff members page with
            | none => .error .panic
            | some page1 => .ok page1
          else .error .panic

/-- walredo.rs apply_batch_neon: require a base image (else InvalidRequest),
then apply every record of the batch in order. -/
def apply_batch_neon {Key : Type} (km : KeyModel Key) (key : Key)
    (base_img : Option BytePage) (records : List (Lsn × NeonWalRecord)) :
    Except RedoFailure BytePage :=
  match base_img with
  | none => .error (.err .InvalidRequest)
  | some fpi => records.foldlM (fun page r => apply_record_neon km key page r.2) fpi

/-! ## request_redo batching (walredo.rs) -/

/-- The two batch applicators request_redo dispatches to, abstracted over the
page representation: apply_batch_neon applies a structured run in process,
apply_batch_postgres sends an opaque run to the external wal-redo child. -/
structure RedoAppliers (Page : Type) where
  apply_batch_neon : Option Page → List (Lsn × NeonWalRecord) → Except RedoFailure Page
  apply_batch_postgres : Option Page → List (Lsn × NeonWalRecord) → Except RedoFailure Page

/-- Dispatch on the polarity flag batch_neon, as the two if-else sites of
request_redo do. -/
def applyBatch {Page : Type} (ap : RedoAppliers Page) (batch_neon : Bool)
    (img : Option Page) (recs : List (Lsn × NeonWalRecord)) : Except RedoFailure Page :=
  if batch_neon then ap.apply_batch_neon img recs else ap.apply_batch_postgres img recs

/-- The scan loop of request_redo (walredo.rs lines 161-199).  batch holds the
records of the current run in reverse (the slice records with indices
batch_start..i of the source); on a polarity flip the pending run is applied
and its output becomes the base image; at the end the last run is applied. -/
def request_redo_loop {Page : Type} (ap : RedoAppliers Page) (img : Option Page)
    (batch_neon : Bool) (batch : List (Lsn × NeonWalRecord)) :
    List (Lsn × NeonWalRecord) → Except RedoFailure Page
  | [] => applyBatch ap batch_neon img batch.reverse
  | r :: rest =>
      let rec_neon := can_apply_in_neon r.2
      if rec_neon ≠ batch_neon then
        match applyBatch ap batch_neon img batch.reverse with
        | .error e => .error e
        | .ok result => request_redo_loop ap (some result) rec_neon [r] rest
      else
        request_redo_loop ap img batch_neon (r :: batch) rest

/-- walredo.rs request_redo: reject an empty record list with InvalidRequest,
otherwise scan the records grouping them into contiguous runs of equal
polarity and apply the runs in order. -/
def request_redo {Page : Type} (ap : RedoAppliers Page) (base_img : Option Page)
    (records : List (Lsn × NeonWalRecord)) : Except RedoFailure Page :=
  match records with
  | [] => .error (.err .InvalidRequest)
  | r0 :: rest => request_redo_loop ap base_img (can_apply_in_neon r0.2) [r0] rest

/-- Modelled from the spec: the batching algorithm as the spec words it.
Scan records left-to-right, grouping into maximal contiguous runs of equal
polarity; apply runs sequentially, each run's output feeding the next run's
base image; the final run's output is the result. -/
def apply_runs_spec {Page : Type} (ap : RedoAppliers Page) (img : Option Page) :
    List (Lsn × NeonWalRecord) → Except RedoFailure Page
  | [] => .error (.err .InvalidRequest)
  | r :: rs =>
      let p := can_apply_in_neon r.2
      match rs.dropWhile (fun x => can_apply_in_neon x.2 == p) with
      | [] => applyBatch ap p img (r :: rs.takeWhile (fun x => can_apply_in_neon x.2 == p))
      | _ :: _ =>
          match applyBatch ap p img (r :: rs.takeWhile (fun x => can_apply_in_neon x.2 == p)) with
          | .error e => .error e
          | .ok out =>
              apply_runs_spec ap (some out) (rs.dropWhile (fun x => can_apply_in_neon x.2 == p))
  termination_by l => l.length
  decreasing_by
    simp only [List.length_cons]
    exact Nat.lt_succ_of_le (List.dropWhile_sublist _).length_le

/-- Call-structure pages: a page that records which applier produced it from
which base and records, used to observe the batching of request_redo.
noImage stands for an absent base image. -/
inductive RedoTrace where
  | base
  | noImage
  | neon (img : RedoTrace) (recs : List (Lsn × NeonWalRecord))
  | pg (img : RedoTrace) (recs : List (Lsn × NeonWalRecord))
deriving DecidableEq, Repr

/-- Appliers that only record their calls. -/
def traceAppliers : RedoAppliers RedoTrace where
  apply_batch_neon := fun img recs => .ok (.neon (img.getD .noImage) recs)
  apply_batch_postgres := fun img recs => .ok (.pg (img.getD .noImage) recs)

/-- Number of external wal-redo child invocations recorded in a trace. -/
def pgCalls : RedoTrace → Nat
  | .base => 0
  | .noImage => 0
  | .neon img _ => pgCalls img
  | .pg img _ => pgCalls img + 1

/-! ## WAL-receiver connection manager (connection_manager.rs)

Wall-clock instants (chrono NaiveDateTime) are Int milliseconds, durations
(std Duration) Nat milliseconds.  The several Utc::now() calls inside one
evaluation are modelled by a single now parameter.  HashMaps are association
lists.  The async connection-task handle carries no data relevant to the
claims and is omitted from WalConnection. -/

/-- utils::id::NodeId, a u64. -/
abbrev NodeId := Nat

/-- connection_manager.rs WALCONNECTION_RETRY_MIN_BACKOFF_SECONDS. -/
def WALCONNECTION_RETRY_MIN_BACKOFF_SECONDS : ℚ := 1 / 10

/-- connection_manager.rs WALCONNECTION_RETRY_MAX_BACKOFF_SECONDS. -/
def WALCONNECTION_RETRY_MAX_BACKOFF_SECONDS : ℚ := 15

/-- connection_manager.rs WALCONNECTION_RETRY_BACKOFF_MULTIPLIER. -/
def WALCONNECTION_RETRY_BACKOFF_MULTIPLIER : ℚ := 3 / 2

/-- storage_broker SafekeeperTimelineInfo, the broker's view of a
safekeeper's timeline. -/
structure SafekeeperTimelineInfo where
  safekeeper_id : NodeId
  last_log_term : Nat
  flush_lsn : Lsn
  commit_lsn : Lsn
  backup_lsn : Lsn
  remote_consistent_lsn : Lsn
  peer_horizon_lsn : Lsn
  local_start_lsn : Lsn
  safekeeper_connstr : String
deriving DecidableEq, Repr

/-- connection_manager.rs BrokerSkTimeline: broker data plus the instant of
its latest update. -/
structure BrokerSkTimeline where
  timeline : SafekeeperTimelineInfo
  latest_update : Int
deriving DecidableEq, Repr

/-- connection_manager.rs RetryInfo. -/
structure RetryInfo where
  next_retry_at : Option Int
  retry_duration_seconds : ℚ
deriving DecidableEq, Repr

/-- walreceiver_connection::WalConnectionStatus. -/
structure WalConnectionStatus where
  is_connected : Bool
  has_processed_wal : Bool
  latest_connection_update : Int
  latest_wal_update : Int
  streaming_lsn : Option Lsn
  commit_lsn : Option Lsn
deriving DecidableEq, Repr

/-- connection_manager.rs NewCommittedWAL. -/
structure NewCommittedWAL where
  lsn : Lsn
  discovered_at : Int
deriving DecidableEq, Repr

/-- connection_manager.rs WalConnection (the async task handle omitted). -/
structure WalConnection where
  started_at : Int
  sk_id : NodeId
  status : WalConnectionStatus
  discovered_new_wal : Option NewCommittedWAL
deriving DecidableEq, Repr

/-- connection_manager.rs WalreceiverState.  last_record_lsn stands for the
external timeline.get_last_record_lsn(). -/
structure WalreceiverState where
  wal_connect_timeout : Nat
  lagging_wal_timeout : Nat
  max_lsn_wal_lag : Nat
  wal_connection : Option WalConnection
  wal_connection_retries : List (NodeId × RetryInfo)
  wal_stream_candidates : List (NodeId × BrokerSkTimeline)
  last_record_lsn : Lsn
deriving DecidableEq, Repr

/-- Association-list lookup (HashMap::get). -/
def alistLookup {β : Type} (l : List (NodeId × β)) (k : NodeId) : Option β :=
  (l.find? (fun e => e.1 = k)).map (·.2)

/-- Association-list insert-or-replace (HashMap::insert / entry().or_insert
followed by mutation). -/
def alistInsert {β : Type} (l : List (NodeId × β)) (k : NodeId) (v : β) :
    List (NodeId × β) :=
  match l with
  | [] => [(k, v)]
  | e :: rest => if e.1 = k then (k, v) :: rest else e :: alistInsert rest k v

/-- Association-list removal (HashMap::remove). -/
def alistRemove {β : Type} (l : List (NodeId × β)) (k : NodeId) : List (NodeId × β) :=
  l.filter (fun e => ¬ e.1 = k)

/-- connection_manager.rs ReconnectReason. -/
inductive ReconnectReason where
  | NoExistingConnection
  | LaggingWal (current_commit_lsn new_commit_lsn : Lsn) (threshold : Nat)
  | NoWalTimeout (current_lsn current_commit_lsn candidate_commit_lsn : Lsn)
      (last_wal_interaction : Option Int) (check_time : Int) (threshold : Nat)
  | NoKeepAlives (last_keep_alive : Option Int) (check_time : Int) (threshold : Nat)
deriving DecidableEq, Repr

/-- connection_manager.rs NewWalConnectionCandidate.  The parsed
PgConnectionConfig is modelled by the connection string it was built from
(the parse in wal_stream_connection_config is outside the slice and is
modelled as always succeeding). -/
structure NewWalConnectionCandidate where
  safekeeper_id : NodeId
  wal_source_connconf : String
  reason : ReconnectReason
deriving DecidableEq, Repr

/-- connection_manager.rs applicable_connection_candidates: keep entries with
a commit_lsn different from Lsn::INVALID, whose retry cooldown (if any) has
expired, and with a non-empty connection string. -/
def applicable_connection_candidates (st : WalreceiverState) (now : Int) :
    List (NodeId × SafekeeperTimelineInfo × String) :=
  ((st.wal_stream_candidates.filter
      (fun e => ¬ e.2.timeline.commit_lsn = Lsn.INVALID)).filter
    (fun e =>
      match (alistLookup st.wal_connection_retries e.1).bind (·.next_retry_at) with
      | none => true
      | some t => t ≤ now)).filterMap
    (fun e =>
      if e.2.timeline.safekeeper_connstr = "" then none
      else some (e.1, e.2.timeline, e.2.timeline.safekeeper_connstr))

/-- Rust Iterator::max_by_key: the last element with the maximal key. -/
def maxByKeyLast {α : Type} (f : α → Nat) : List α → Option α :=
  List.foldl (fun acc x =>
    match acc with
    | none => some x
    | some m => if f m ≤ f x then some x else some m) none

/-- connection_manager.rs select_connection_candidate: among the applicable
candidates other than node_to_omit, the one with the greatest commit_lsn. -/
def select_connection_candidate (st : WalreceiverState) (now : Int)
    (node_to_omit : Option NodeId) : Option (NodeId × SafekeeperTimelineInfo × String) :=
  maxByKeyLast (fun c => c.2.1.commit_lsn)
    ((applicable_connection_candidates st now).filter (fun c => ¬ some c.1 = node_to_omit))

/-- The staleness test of cleanup_old_candidates: an entry is purged when its
latest_update is at least lagging_wal_timeout in the past (should_retain is
time_since_latest_broker_update < lagging_wal_timeout; a latest_update in
the future fails to_std and is retained). -/
def candidateIsStale (st : WalreceiverState) (now : Int) (b : BrokerSkTimeline) : Bool :=
  0 ≤ now - b.latest_update ∧ (st.lagging_wal_timeout : Int) ≤ now - b.latest_update

/-- connection_manager.rs cleanup_old_candidates: drop broker entries that
have not been updated within lagging_wal_timeout and drop the retry records
of the dropped node ids. -/
def cleanup_old_candidates (st : WalreceiverState) (now : Int) : WalreceiverState :=
  let node_ids_to_remove :=
    (st.wal_stream_candidates.filter (fun e => candidateIsStale st now e.2)).map (·.1)
  { st with
    wal_stream_candidates :=
      st.wal_stream_candidates.filter (fun e => ¬ candidateIsStale st now e.2),
    wal_connection_retries :=
      st.wal_connection_retries.filter (fun e => ¬ e.1 ∈ node_ids_to_remove) }

/-- connection_manager.rs next_connection_candidate: clean up stale broker
entries, then decide whether to switch connections.  Returns the updated
state (candidate purge and the persisted discovered_new_wal) together with
the chosen candidate, if any. -/
def next_connection_candidate (st0 : WalreceiverState) (now : Int) :
    WalreceiverState × Option NewWalConnectionCandidate :=
  let st := cleanup_old_candidates st0 now
  match st.wal_connection with
  | some existing =>
      match select_connection_candidate st now (some existing.sk_id) with
      | none => (st, none)
      | some (new_sk_id, new_sk_data, new_connconf) =>
          if 0 ≤ now - existing.status.latest_connection_update ∧
              (st.wal_connect_timeout : Int) < now - existing.status.latest_connection_update then
            (st, some ⟨new_sk_id, new_connconf,
              .NoKeepAlives (some existing.status.latest_connection_update) now
                st.wal_connect_timeout⟩)
          else if existing.status.is_connected = false then
            (st, none)
          else
            let laggingCheck : Option NewWalConnectionCandidate :=
              match existing.status.commit_lsn with
              | none => none
              | some current_commit_lsn =>
                  if current_commit_lsn ≤ new_sk_data.commit_lsn ∧
                      st.max_lsn_wal_lag ≤ new_sk_data.commit_lsn - current_commit_lsn then
                    some ⟨new_sk_id, new_connconf,
                      .LaggingWal current_commit_lsn new_sk_data.commit_lsn st.max_lsn_wal_lag⟩
                  else none
            match laggingCheck with
            | some c => (st, some c)
            | none =>
            let current_lsn :=
              match existing.status.streaming_lsn with
              | some lsn => lsn
              | none => st.last_record_lsn
            let current_commit_lsn := existing.status.commit_lsn.getD current_lsn
            let candidate_commit_lsn := new_sk_data.commit_lsn
            let discovered0 :=
              existing.discovered_new_wal.filter (fun nw => current_commit_lsn < nw.lsn)
            let discovered :=
              match discovered0 with
              | some nw => some nw
              | none =>
                  if current_commit_lsn < candidate_commit_lsn then
                    some ⟨candidate_commit_lsn, now⟩
                  else none
            let waiting_for_new_lsn_since :=
              if current_lsn < current_commit_lsn then
                some existing.status.latest_wal_update
              else
                discovered.map (fun nw =>
                  max nw.discovered_at existing.status.latest_wal_update)
            match waiting_for_new_lsn_since with
            | some since =>
                if 0 ≤ now - since ∧ current_commit_lsn < candidate_commit_lsn ∧
                    (st.lagging_wal_timeout : Int) < now - since then
                  (st, some ⟨new_sk_id, new_connconf,
                    .NoWalTimeout current_lsn current_commit_lsn candidate_commit_lsn
                      (some existing.status.latest_wal_update) now st.lagging_wal_timeout⟩)
                else
                  ({ st with wal_connection := some ({ existing with discovered_new_wal := discovered }) }, none)
            | none =>
                ({ st with wal_connection := some ({ existing with discovered_new_wal := discovered }) }, none)
  | none =>
      match select_connection_candidate st now none with
      | none => (st, none)
      | some (new_sk_id, _, new_connconf) =>
          (st, some ⟨new_sk_id, new_connconf, .NoExistingConnection⟩)

/-- Truncation of a non-negative rational seconds value to whole
milliseconds, the (retry_duration_seconds * 1000.0) as i64 of
drop_old_connection. -/
def secondsToMillis (q : ℚ) : Int := ⌊q * 1000⌋

/-- connection_manager.rs drop_old_connection: take the connection away, and
on the retry record of its safekeeper (created with no deadline and the
minimal backoff if absent) set next_retry_at to started_at plus the current
backoff, then multiply the backoff by 1.5 and clamp it to the
minimum/maximum bounds.  The optional sub-task shutdown carries no state
relevant here. -/
def drop_old_connection (st : WalreceiverState) : WalreceiverState :=
  match st.wal_connection with
  | none => st
  | some conn =>
      let retry := (alistLookup st.wal_connection_retries conn.sk_id).getD
        ⟨none, WALCONNECTION_RETRY_MIN_BACKOFF_SECONDS⟩
      let next_retry_at := some (conn.started_at + secondsToMillis retry.retry_duration_seconds)
      let next_retry_duration :=
        retry.retry_duration_seconds * WALCONNECTION_RETRY_BACKOFF_MULTIPLIER
      let next_retry_duration := min next_retry_duration WALCONNECTION_RETRY_MAX_BACKOFF_SECONDS
      let next_retry_duration := max next_retry_duration WALCONNECTION_RETRY_MIN_BACKOFF_SECONDS
      { st with
        wal_connection := none,
        wal_connection_retries := alistInsert st.wal_connection_retries conn.sk_id
          ⟨next_retry_at, next_retry_duration⟩ }

/-- The TaskStateUpdate::Progress arm of connection_manager_loop_step
(connection_manager.rs lines 151-160): on a status update from the
streaming task, clear the retry record of the connected safekeeper if the
update reports processed WAL, and store the status on the connection. -/
def handle_progress_update (st : WalreceiverState) (status : WalConnectionStatus) :
    WalreceiverState :=
  match st.wal_connection with
  | none => st
  | some conn =>
      { st with
        wal_connection_retries :=
          if status.has_processed_wal then
            alistRemove st.wal_connection_retries conn.sk_id
          else st.wal_connection_retries,
        wal_connection := some { conn with status := status } }

/-! ## Background process supervisor (background_process.rs) -/

/-- utils::pid_file::PidFileRead, the outcome of reading a pidfile. -/
inductive PidFileRead where
  | NotExist
  | NotHeldByAnyProcess (pid : Nat)
  | LockedByOtherProcess (pid : Nat)
deriving DecidableEq, Repr

/-- The two stop signals of stop_process. -/
inductive StopSignal where
  | SIGTERM
  | SIGQUIT
deriving DecidableEq, Repr

/-- Outcome of a kill(pid, sig) call. -/
inductive KillOutcome where
  | ok
  | esrch
  | err
deriving DecidableEq, Repr

/-- Externally visible actions stop_process can take on the system.  The
source never unlinks the pidfile, so deletedPidFile is never produced; it is
in the type so that its absence is expressible. -/
inductive StopAction where
  | signalled (pid : Nat) (sig : StopSignal)
  | deletedPidFile
deriving DecidableEq, Repr

/-- The environment stop_process runs against: the pidfile read outcome, the
outcome of the stop signal, and the outcome of each kill(pid, 0) existence
poll of the wait loop, indexed by retry number. -/
structure StopWorld where
  read_result : Except Unit PidFileRead
  kill_result : Nat → StopSignal → KillOutcome
  poll_result : Nat → Nat → KillOutcome

/-- background_process.rs RETRIES = (RETRY_UNTIL_SECS * 1000) /
RETRY_INTERVAL_MILLIS. -/
def STOP_RETRIES : Nat := 10 * 1000 / 100

/-- The wait loop of stop_process: poll process_has_stopped (kill(pid, 0))
once per retry; ESRCH means stopped (Ok), ok means still running (keep
waiting), any other error aborts; running out of retries is a failure. -/
def stop_process_wait (w : StopWorld) (pid : Nat) : Nat → Except Unit Unit
  | 0 => .error ()
  | n + 1 =>
      match w.poll_result pid (STOP_RETRIES - (n + 1)) with
      | .esrch => .ok ()
      | .ok => stop_process_wait w pid n
      | .err => .error ()

/-- background_process.rs stop_process: read the pidfile; an absent pidfile
or one not held by any process means the process is already stopped, the
file is left alone and no signal is sent; a held pidfile yields the pid to
signal with SIGQUIT (immediate) or SIGTERM (graceful), after which the wait
loop polls for process exit.  Returns the result together with the actions
taken. -/
def stop_process (immediate : Bool) (w : StopWorld) :
    Except Unit Unit × List StopAction :=
  match w.read_result with
  | .error _ => (.error (), [])
  | .ok .NotExist => (.ok (), [])
  | .ok (.NotHeldByAnyProcess _) => (.ok (), [])
  | .ok (.LockedByOtherProcess pid) =>
      let sig := if immediate then StopSignal.SIGQUIT else StopSignal.SIGTERM
      match w.kill_result pid sig with
      | .esrch => (.ok (), [.signalled pid sig])
      | .err => (.error (), [.signalled pid sig])
      | .ok => (stop_process_wait w pid STOP_RETRIES, [.signalled pid sig])

/-! ## Helper lemmas: masked byte writes -/

theorem maskedWrite_after (M1 V1 M2 V2 b : Nat) :
    maskedWrite M2 V2 (maskedWrite M1 V1 b) =
      maskedWrite (M1 &&& M2) ((V1 &&& M2) ||| V2) b := by
  unfold maskedWrite
  apply Nat.eq_of_testBit_eq
  intro i
  simp only [Nat.testBit_and, Nat.testBit_or]
  cases b.testBit i <;> cases M1.testBit i <;> cases M2.testBit i <;>
    cases V1.testBit i <;> cases V2.testBit i <;> rfl

theorem maskedWrite_idem (M V b : Nat) :
    maskedWrite M V (maskedWrite M V b) = maskedWrite M V b := by
  unfold maskedWrite
  apply Nat.eq_of_testBit_eq
  intro i
  simp only [Nat.testBit_and, Nat.testBit_or]
  cases b.testBit i <;> cases M.testBit i <;> cases V.testBit i <;> rfl

/-! ## Helper lemmas: request_redo and the run decomposition -/

theorem apply_runs_spec_cons {Page : Type} (ap : RedoAppliers Page) (img : Option Page)
    (r : Lsn × NeonWalRecord) (rs : List (Lsn × NeonWalRecord)) :
    apply_runs_spec ap img (r :: rs) =
      match rs.dropWhile (fun x => can_apply_in_neon x.2 == can_apply_in_neon r.2) with
      | [] => applyBatch ap (can_apply_in_neon r.2) img
          (r :: rs.takeWhile (fun x => can_apply_in_neon x.2 == can_apply_in_neon r.2))
      | _ :: _ =>
          match applyBatch ap (can_apply_in_neon r.2) img
              (r :: rs.takeWhile (fun x => can_apply_in_neon x.2 == can_apply_in_neon r.2)) with
          | .error e => .error e
          | .ok out => apply_runs_spec ap (some out)
              (rs.dropWhile (fun x => can_apply_in_neon x.2 == can_apply_in_neon r.2)) := by
  rw [apply_runs_spec]

theorem request_redo_loop_eq_runs {Page : Type} (ap : RedoAppliers Page) :
    ∀ (rest : List (Lsn × NeonWalRecord)) (img : Option Page) (p : Bool)
      (batch : List (Lsn × NeonWalRecord)),
      batch ≠ [] → (∀ x ∈ batch, can_apply_in_neon x.2 = p) →
      request_redo_loop ap img p batch rest = apply_runs_spec ap img (batch.reverse ++ rest)
  | [], img, p, batch, hne, hall => by
      rw [request_redo_loop]
      obtain ⟨r, rs, hrs⟩ : ∃ r rs, batch.reverse = r :: rs := by
        cases hb : batch.reverse with
        | nil => exact absurd (by simpa using congrArg List.reverse hb) hne
        | cons r rs => exact ⟨r, rs, rfl⟩
      have hallrev : ∀ x ∈ batch.reverse, can_apply_in_neon x.2 = p := by
        intro x hx; exact hall x (List.mem_reverse.mp hx)
      have hr : can_apply_in_neon r.2 = p := hallrev r (by rw [hrs]; exact List.mem_cons_self ..)
      have hrsall : ∀ x ∈ rs, (fun x => can_apply_in_neon x.2 == p) x = true := by
        intro x hx
        simp only [beq_iff_eq]
        exact hallrev x (by rw [hrs]; exact List.mem_cons_of_mem _ hx)
      rw [List.append_nil, hrs, apply_runs_spec_cons, hr]
      rw [List.dropWhile_eq_nil_iff.mpr hrsall, List.takeWhile_eq_self_iff.mpr hrsall]
  | x :: rest, img, p, batch, hne, hall => by
      rw [request_redo_loop]
      by_cases hx : can_apply_in_neon x.2 = p
      · simp only [hx, ne_eq, not_true_eq_false, if_neg, ite_false, not_not]
        have ih := request_redo_loop_eq_runs ap rest img p (x :: batch)
          (by simp) (by intro y hy; rcases List.mem_cons.mp hy with h | h
                        · rw [h]; exact hx
                        · exact hall y h)
        rw [ih, List.reverse_cons, List.append_assoc]
        rfl
      · simp only [hx, ne_eq, not_false_eq_true, if_pos, ite_true]
        obtain ⟨r, rs, hrs⟩ : ∃ r rs, batch.reverse = r :: rs := by
          cases hb : batch.reverse with
          | nil => exact absurd (by simpa using congrArg List.reverse hb) hne
          | cons r rs => exact ⟨r, rs, rfl⟩
        have hallrev : ∀ y ∈ batch.reverse, can_apply_in_neon y.2 = p := by
          intro y hy; exact hall y (List.mem_reverse.mp hy)
        have hr : can_apply_in_neon r.2 = p := hallrev r (by rw [hrs]; exact List.mem_cons_self ..)
        have hrsall : ∀ y ∈ rs, (fun y => can_apply_in_neon y.2 == p) y = true := by
          intro y hy
          simp only [beq_iff_eq]
          exact hallrev y (by rw [hrs]; exact List.mem_cons_of_mem _ hy)
        have hxneg : ¬ ((fun y => can_apply_in_neon y.2 == p) x = true) := by
          simp only [beq_iff_eq]; exact hx
        have hdrop : (rs ++ x :: rest).dropWhile (fun y => can_apply_in_neon y.2 == p)
            = x :: rest := by
          rw [List.dropWhile_append_of_pos hrsall,
            @List.dropWhile_cons_of_neg _ (fun y => can_apply_in_neon y.2 == p) x rest hxneg]
        have htake : (rs ++ x :: rest).takeWhile (fun y => can_apply_in_neon y.2 == p) = rs := by
          rw [List.takeWhile_append_of_pos hrsall,
            @List.takeWhile_cons_of_neg _ (fun y => can_apply_in_neon y.2 == p) x rest hxneg,
            List.append_nil]
        rw [hrs, List.cons_append, apply_runs_spec_cons, hr, hdrop, htake]
        rw [show r :: rs = batch.reverse from hrs.symm]
        cases happ : applyBatch ap p img batch.reverse with
        | error e => rfl
        | ok out =>
            have ih := request_redo_loop_eq_runs ap rest (some out) (can_apply_in_neon x.2) [x]
              (by simp) (by intro y hy; simp only [List.mem_singleton] at hy; rw [hy])
            simp only [List.reverse_singleton, List.singleton_append] at ih
            exact ih
  termination_by rest => rest.length

theorem request_redo_eq_runs {Page : Type} (ap : RedoAppliers Page) (base : Option Page)
    (records : List (Lsn × NeonWalRecord)) :
    request_redo ap base records = apply_runs_spec ap base records := by
  cases records with
  | nil => rw [request_redo, apply_runs_spec]
  | cons r rest =>
      rw [request_redo]
      have h := request_redo_loop_eq_runs ap rest base (can_apply_in_neon r.2) [r]
        (by simp) (by intro y hy; simp only [List.mem_singleton] at hy; rw [hy])
      simp only [List.reverse_singleton, List.singleton_append] at h
      rw [h]

/-! ## Helper lemmas: the CLOG status loop -/

/-- Cumulative effect of the xid loop on the byte at index j: apply the
per-xid masked write of every xid whose CLOG byte index is j, left to
right. -/
def byteAfter (status : Nat) (xids : List Nat) (j : Nat) (b : Nat) : Nat :=
  match xids with
  | [] => b
  | x :: rest => byteAfter status rest j (if clogByteno x = j then clogStepByte status x b else b)

theorem clogByteno_lt (xid : Nat) : clogByteno xid < BLCKSZ := by
  unfold clogByteno CLOG_XACTS_PER_PAGE CLOG_XACTS_PER_BYTE BLCKSZ
  omega

theorem byteAfter_of_large (status : Nat) (xids : List Nat) (j : Nat) (hj : BLCKSZ ≤ j) :
    ∀ b, byteAfter status xids j b = b := by
  induction xids with
  | nil => intro b; rfl
  | cons x rest ih =>
      intro b
      rw [byteAfter]
      have : ¬ clogByteno x = j := by
        intro h
        exact absurd (h ▸ clogByteno_lt x) (Nat.not_lt.mpr hj)
      rw [if_neg this]
      exact ih b

theorem byteAfter_mv (status : Nat) (xids : List Nat) (j : Nat) :
    (∀ b, byteAfter status xids j b = b) ∨
    (∃ M V, ∀ b, byteAfter status xids j b = maskedWrite M V b) := by
  induction xids with
  | nil => exact Or.inl (fun b => rfl)
  | cons x rest ih =>
      by_cases hx : clogByteno x = j
      · rcases ih with hid | ⟨M, V, hmv⟩
        · refine Or.inr ⟨255 ^^^ ((CLOG_XACT_BITMASK <<< clogBshift x) % 256),
            (status <<< clogBshift x) % 256, fun b => ?_⟩
          rw [byteAfter, if_pos hx, hid]
          rfl
        · refine Or.inr ⟨(255 ^^^ ((CLOG_XACT_BITMASK <<< clogBshift x) % 256)) &&& M,
            (((status <<< clogBshift x) % 256) &&& M) ||| V, fun b => ?_⟩
          rw [byteAfter, if_pos hx, hmv, clogStepByte, maskedWrite_after]
      · rcases ih with hid | ⟨M, V, hmv⟩
        · exact Or.inl (fun b => by rw [byteAfter, if_neg hx]; exact hid b)
        · exact Or.inr ⟨M, V, fun b => by rw [byteAfter, if_neg hx]; exact hmv b⟩

theorem byteAfter_idem (status : Nat) (xids : List Nat) (j b : Nat) :
    byteAfter status xids j (byteAfter status xids j b) = byteAfter status xids j b := by
  rcases byteAfter_mv status xids j with hid | ⟨M, V, hmv⟩
  · rw [hid, hid]
  · simp only [hmv]
    exact maskedWrite_idem M V b

theorem clog_set_statuses_spec (status segno blknum : Nat) :
    ∀ (xids : List Nat) (page out : BytePage),
      clog_set_statuses status segno blknum xids page = some out →
      out.length = page.length ∧
      ∀ j, out[j]? = (page[j]?).map (fun b => byteAfter status xids j b) := by
  intro xids
  induction xids with
  | nil =>
      intro page out h
      rw [clog_set_statuses] at h
      cases h
      exact ⟨rfl, fun j => by cases page[j]? <;> simp [byteAfter]⟩
  | cons x rest ih =>
      intro page out h
      rw [clog_set_statuses] at h
      split at h
      · rw [transaction_id_set_status] at h
        cases hb : page[clogByteno x]? with
        | none => rw [hb] at h; exact absurd h (by simp)
        | some b =>
            rw [hb] at h
            have hlt : clogByteno x < page.length := (List.getElem?_eq_some_iff.mp hb).1
            obtain ⟨hlen, hget⟩ := ih (page.set (clogByteno x) (clogStepByte status x b)) out h
            refine ⟨by rw [hlen, List.length_set], fun j => ?_⟩
            rw [hget j]
            by_cases hj : clogByteno x = j
            · subst hj
              rw [List.getElem?_set_self hlt, hb]
              simp only [Option.map_some']
              rw [byteAfter, if_pos rfl]
            · rw [List.getElem?_set_ne hj]
              cases hpj : page[j]? with
              | none => rfl
              | some b0 =>
                  simp only [Option.map_some', Option.some_inj]
                  rw [byteAfter, if_neg hj]
      · exact absurd h (by simp)

theorem clog_set_statuses_isSome_mono (status segno blknum : Nat) :
    ∀ (xids : List Nat) (page q : BytePage),
      (clog_set_statuses status segno blknum xids page).isSome →
      page.length ≤ q.length →
      (clog_set_statuses status segno blknum xids q).isSome := by
  intro xids
  induction xids with
  | nil => intro page q _ _; rw [clog_set_statuses]; rfl
  | cons x rest ih =>
      intro page q h hle
      rw [clog_set_statuses] at h ⊢
      split at h
      · rename_i hguard
        rw [if_pos hguard]
        rw [transaction_id_set_status] at h ⊢
        cases hb : page[clogByteno x]? with
        | none => rw [hb] at h; exact absurd h (by simp)
        | some b =>
            rw [hb] at h
            have hlt : clogByteno x < page.length := (List.getElem?_eq_some_iff.mp hb).1
            have hltq : clogByteno x < q.length := Nat.lt_of_lt_of_le hlt hle
            rw [List.getElem?_eq_getElem hltq]
            simp only [] at h ⊢
            exact ih _ _ h (by rw [List.length_set, List.length_set]; exact hle)
      · exact absurd h (by simp)

/-! ## Helper lemmas: the ClogSetCommitted timestamp step -/

theorem i64_to_be_bytes_length (t : Int) : (i64_to_be_bytes t).length = 8 := rfl

theorem clog_timestamp_truncate_length (page : BytePage) :
    (clog_timestamp_truncate page).length =
      if page.length = BLCKSZ + 8 then BLCKSZ else page.length := by
  rw [clog_timestamp_truncate]
  split
  · rename_i h
    rw [List.length_take, h]
    omega
  · rfl

theorem clog_timestamp_truncate_getElem (page : BytePage) (j : Nat) (hj : j < BLCKSZ) :
    (clog_timestamp_truncate page)[j]? = page[j]? := by
  rw [clog_timestamp_truncate]
  split
  · exact List.getElem?_take_of_lt hj
  · rfl

theorem clog_timestamp_adjust_length (ts : Int) (page : BytePage) :
    (clog_timestamp_adjust ts page).length =
      if page.length = BLCKSZ ∨ page.length = BLCKSZ + 8 then BLCKSZ + 8
      else page.length := by
  rw [clog_timestamp_adjust]
  by_cases h8 : page.length = BLCKSZ + 8
  · have ht : (clog_timestamp_truncate page).length = BLCKSZ := by
      rw [clog_timestamp_truncate_length, if_pos h8]
    rw [if_pos ht, List.length_append, ht, i64_to_be_bytes_length, if_pos (Or.inr h8)]
  · by_cases h0 : page.length = BLCKSZ
    · have ht : (clog_timestamp_truncate page).length = BLCKSZ := by
        rw [clog_timestamp_truncate_length, if_neg h8]
        exact h0
      rw [if_pos ht, List.length_append, ht, i64_to_be_bytes_length, if_pos (Or.inl h0)]
    · have ht : (clog_timestamp_truncate page).length = page.length := by
        rw [clog_timestamp_truncate_length, if_neg h8]
      rw [if_neg (by rw [ht]; exact h0), ht,
        if_neg (by push_neg; exact ⟨h0, h8⟩)]

theorem clog_timestamp_adjust_le (ts : Int) (page : BytePage) :
    page.length ≤ (clog_timestamp_adjust ts page).length := by
  rw [clog_timestamp_adjust_length]
  split
  · rename_i h
    rcases h with h | h <;> omega
  · exact Nat.le_refl _

theorem clog_timestamp_adjust_getElem (ts : Int) (page : BytePage) (j : Nat)
    (hj : j < BLCKSZ) : (clog_timestamp_adjust ts page)[j]? = page[j]? := by
  rw [clog_timestamp_adjust]
  split
  · rename_i ht
    rw [List.getElem?_append_left (by rw [ht]; exact hj)]
    exact clog_timestamp_truncate_getElem page j hj
  · exact clog_timestamp_truncate_getElem page j hj

theorem clog_timestamp_adjust_idem (ts : Int) (page : BytePage) :
    clog_timestamp_adjust ts (clog_timestamp_adjust ts page) =
      clog_timestamp_adjust ts page := by
  by_cases hc : page.length = BLCKSZ ∨ page.length = BLCKSZ + 8
  · have htp : (clog_timestamp_truncate page).length = BLCKSZ := by
      rw [clog_timestamp_truncate_length]
      rcases hc with h0 | h8
      · rw [if_neg (by omega)]
        exact h0
      · rw [if_pos h8]
    have hA : clog_timestamp_adjust ts page =
        clog_timestamp_truncate page ++ i64_to_be_bytes ts := by
      rw [clog_timestamp_adjust, if_pos htp]
    have hAlen : (clog_timestamp_adjust ts page).length = BLCKSZ + 8 := by
      rw [hA, List.length_append, htp, i64_to_be_bytes_length]
    have htA : clog_timestamp_truncate (clog_timestamp_adjust ts page) =
        clog_timestamp_truncate page := by
      rw [clog_timestamp_truncate, if_pos hAlen, hA, List.take_left' htp]
    rw [clog_timestamp_adjust, htA, if_pos htp]
    exact hA.symm
  · push_neg at hc
    have htp : clog_timestamp_truncate page = page := by
      rw [clog_timestamp_truncate, if_neg hc.2]
    have hA : clog_timestamp_adjust ts page = page := by
      rw [clog_timestamp_adjust, htp, if_neg hc.1]
    rw [hA]
    exact hA

/-! ## Helper lemmas: association lists and max-by-key selection -/

theorem alistLookup_insert_self {β : Type} (l : List (NodeId × β)) (k : NodeId) (v : β) :
    alistLookup (alistInsert l k v) k = some v := by
  induction l with
  | nil => simp [alistInsert, alistLookup]
  | cons e rest ih =>
      rw [alistInsert]
      by_cases he : e.1 = k
      · rw [if_pos he]
        simp [alistLookup]
      · rw [if_neg he]
        rw [alistLookup, List.find?_cons_of_neg _ (by simpa using he)]
        exact ih

theorem alistLookup_remove_self {β : Type} (l : List (NodeId × β)) (k : NodeId) :
    alistLookup (alistRemove l k) k = none := by
  induction l with
  | nil => rfl
  | cons e rest ih =>
      rw [alistRemove, List.filter_cons]
      by_cases he : e.1 = k
      · simp only [he, not_true_eq_false, decide_False, if_false]
        exact ih
      · simp only [he, not_false_eq_true, decide_True, if_true]
        rw [alistLookup, List.find?_cons_of_neg _ (by simpa using he)]
        exact ih

theorem maxByKeyLast_go_spec {α : Type} (f : α → Nat) :
    ∀ (l : List α) (m : α),
      ∃ x, List.foldl (fun acc x =>
          match acc with
          | none => some x
          | some m => if f m ≤ f x then some x else some m) (some m) l = some x ∧
        (x = m ∨ x ∈ l) ∧ f m ≤ f x ∧ ∀ y ∈ l, f y ≤ f x := by
  intro l
  induction l with
  | nil => exact fun m => ⟨m, rfl, Or.inl rfl, Nat.le_refl _, by simp⟩
  | cons a l ih =>
      intro m
      rw [List.foldl_cons]
      by_cases h : f m ≤ f a
      · obtain ⟨x, hfold, hmem, hle, hall⟩ := ih a
        refine ⟨x, ?_, ?_, Nat.le_trans h hle, ?_⟩
        · simpa [h] using hfold
        · rcases hmem with h1 | h1
          · exact Or.inr (h1 ▸ List.mem_cons_self ..)
          · exact Or.inr (List.mem_cons_of_mem _ h1)
        · intro y hy
          rcases List.mem_cons.mp hy with h1 | h1
          · exact h1 ▸ hle
          · exact hall y h1
      · obtain ⟨x, hfold, hmem, hle, hall⟩ := ih m
        refine ⟨x, ?_, ?_, hle, ?_⟩
        · simpa [h] using hfold
        · rcases hmem with h1 | h1
          · exact Or.inl h1
          · exact Or.inr (List.mem_cons_of_mem _ h1)
        · intro y hy
          rcases List.mem_cons.mp hy with h1 | h1
          · exact h1 ▸ Nat.le_trans (Nat.le_of_lt (Nat.lt_of_not_le h)) hle
          · exact hall y h1

theorem maxByKeyLast_spec {α : Type} (f : α → Nat) (l : List α) (x : α)
    (h : maxByKeyLast f l = some x) : x ∈ l ∧ ∀ y ∈ l, f y ≤ f x := by
  cases l with
  | nil => exact absurd h (by simp [maxByKeyLast])
  | cons a l =>
      obtain ⟨x', hfold, hmem, hle, hall⟩ := maxByKeyLast_go_spec f l a
      rw [maxByKeyLast, List.foldl_cons] at h
      have hx : x = x' := by
        rw [show (List.foldl (fun acc x =>
            match acc with
            | none => some x
            | some m => if f m ≤ f x then some x else some m) (some a) l) = some x'
          from hfold] at h
        exact (Option.some_inj.mp h).symm
      subst hx
      refine ⟨?_, ?_⟩
      · rcases hmem with h1 | h1
        · exact h1 ▸ List.mem_cons_self ..
        · exact List.mem_cons_of_mem _ h1
      · intro y hy
        rcases List.mem_cons.mp hy with h1 | h1
        · exact h1 ▸ hle
        · exact hall y h1

theorem maxByKeyLast_isSome {α : Type} (f : α → Nat) (l : List α) (h : l ≠ []) :
    (maxByKeyLast f l).isSome := by
  cases l with
  | nil => exact absurd rfl h
  | cons a l =>
      obtain ⟨x, hfold, _, _, _⟩ := maxByKeyLast_go_spec f l a
      rw [maxByKeyLast, List.foldl_cons, hfold]
      rfl

/-! ## Helper lemmas: state fields across candidate evaluation -/

theorem cleanup_preserves_scalars (st : WalreceiverState) (now : Int) :
    (cleanup_old_candidates st now).wal_connection = st.wal_connection ∧
    (cleanup_old_candidates st now).wal_connect_timeout = st.wal_connect_timeout ∧
    (cleanup_old_candidates st now).lagging_wal_timeout = st.lagging_wal_timeout ∧
    (cleanup_old_candidates st now).max_lsn_wal_lag = st.max_lsn_wal_lag := by
  exact ⟨rfl, rfl, rfl, rfl⟩

theorem next_connection_candidate_maps (st : WalreceiverState) (now : Int) :
    (next_connection_candidate st now).1.wal_stream_candidates =
      (cleanup_old_candidates st now).wal_stream_candidates ∧
    (next_connection_candidate st now).1.wal_connection_retries =
      (cleanup_old_candidates st now).wal_connection_retries := by
  rw [next_connection_candidate]
  dsimp only
  repeat' split
  all_goals exact ⟨rfl, rfl⟩

/-! ## Concrete instances used in claim witnesses -/

/-- A trivial key translation for concrete instances: every key translates to
the CLOG block of segment 0, block 0, and to block 0 of a visibility-map
fork. -/
def kmUnit : KeyModel Unit where
  key_to_rel_block := fun _ => .ok (⟨1, 1, 1, VISIBILITYMAP_FORKNUM⟩, 0)
  key_to_slru_block := fun _ => .ok (.Clog, 0, 0)

/-! ## Claim theorems -/

/-- C1: request_redo splits a non-empty records list left-to-right into
maximal contiguous runs of equal polarity and applies the runs sequentially,
each run's output becoming the next run's base image and the final run's
output the result (the source loop agrees with the run-by-run
specification); in particular, on the mixed batch
[structured_A, structured_B, opaque_C, structured_D] the external child is
invoked exactly once, on [opaque_C], with base image the in-process result
of [A, B], and the child's result is the base image for the in-process
application of [D]. -/
theorem request_redo_batches_into_polarity_runs :
    (∀ (Page : Type) (ap : RedoAppliers Page) (base : Option Page)
        (records : List (Lsn × NeonWalRecord)),
        request_redo ap base records = apply_runs_spec ap base records) ∧
    request_redo traceAppliers (some .base)
        [(1, .clogSetAborted [1]), (2, .clogSetAborted [2]),
         (3, .postgres true [7]), (4, .clogSetAborted [3])] =
      .ok (.neon (.pg (.neon .base [(1, .clogSetAborted [1]), (2, .clogSetAborted [2])])
            [(3, .postgres true [7])]) [(4, .clogSetAborted [3])]) ∧
    pgCalls (.neon (.pg (.neon .base [(1, .clogSetAborted [1]), (2, .clogSetAborted [2])])
            [(3, .postgres true [7])]) [(4, .clogSetAborted [3])]) = 1 :=
  ⟨fun _ ap base records => request_redo_eq_runs ap base records, rfl, rfl⟩

/-- C7: request_redo on an empty records list fails with InvalidRequest
without consulting either batch applier, for any appliers whatsoever (so the
child process is neither launched nor contacted); and for any records list
whose first run is structured and any external applier, a call with no base
image fails with InvalidRequest. -/
theorem request_redo_invalid_request_cases :
    (∀ (Page : Type) (ap : RedoAppliers Page) (base : Option Page),
        request_redo ap base [] = .error (.err .InvalidRequest)) ∧
    ∀ (Key : Type) (km : KeyModel Key) (key : Key)
      (applyPg : Option BytePage → List (Lsn × NeonWalRecord) → Except RedoFailure BytePage)
      (r : Lsn × NeonWalRecord) (rs : List (Lsn × NeonWalRecord)),
      can_apply_in_neon r.2 = true →
      request_redo ⟨apply_batch_neon km key, applyPg⟩ none (r :: rs) =
        .error (.err .InvalidRequest) := by
  constructor
  · intro Page ap base
    rfl
  · intro Key km key applyPg r rs hr
    rw [request_redo_eq_runs, apply_runs_spec_cons, hr]
    cases hdrop : rs.dropWhile (fun x => can_apply_in_neon x.2 == true) with
    | nil => rfl
    | cons a l => rfl

/-- Witness for C7 at a concrete structured record with no base image. -/
theorem request_redo_invalid_request_cases_witness :
    can_apply_in_neon (NeonWalRecord.clogSetAborted []) = true ∧
    request_redo ⟨apply_batch_neon kmUnit (), fun _ _ => .error (.err .IoError)⟩ none
        [(1, .clogSetAborted [])] = .error (.err .InvalidRequest) :=
  ⟨rfl, request_redo_invalid_request_cases.2 Unit kmUnit ()
    (fun _ _ => .error (.err .IoError)) (1, .clogSetAborted []) [] rfl⟩

/-- C8: applying ClogSetCommitted twice with identical arguments is
idempotent on the page: for every key translation that lets the record
apply (key mapping to the matching Clog SLRU block) and every page on which
the first application succeeds, applying the same record to the resulting
page succeeds and returns it unchanged; the second application re-sets the
same 2-bit committed statuses and truncates the trailing 8 bytes it
appended before re-appending the same big-endian timestamp. -/
theorem clog_set_committed_idempotent {Key : Type} (km : KeyModel Key) (key : Key)
    (xids : List Nat) (ts : Int) (page p1 : BytePage)
    (h : apply_record_neon km key page (.clogSetCommitted xids ts) = .ok p1) :
    apply_record_neon km key p1 (.clogSetCommitted xids ts) = .ok p1 := by
  rw [apply_record_neon] at h ⊢
  cases hk : km.key_to_slru_block key with
  | error e =>
      simp only [hk] at h
      exact absurd h (by simp)
  | ok v =>
      obtain ⟨kind, segno, blknum⟩ := v
      simp only [hk] at h
      show (if kind = SlruKind.Clog then
          match clog_set_statuses TRANSACTION_STATUS_COMMITTED segno blknum xids p1 with
          | none => Except.error RedoFailure.panic
          | some page1 => Except.ok (clog_timestamp_adjust ts page1)
        else Except.error RedoFailure.panic) = Except.ok p1
      by_cases hkind : kind = SlruKind.Clog
      case neg =>
        rw [if_neg hkind] at h
        exact absurd h (by simp)
      rw [if_pos hkind] at h ⊢
      cases hs : clog_set_statuses TRANSACTION_STATUS_COMMITTED segno blknum xids page with
      | none =>
          simp only [hs] at h
          exact absurd h (by simp)
      | some q =>
          rw [hs] at h
          have hp1 : p1 = clog_timestamp_adjust ts q := (Except.ok.inj h).symm
          obtain ⟨hqlen, hqget⟩ :=
            clog_set_statuses_spec TRANSACTION_STATUS_COMMITTED segno blknum xids page q hs
          have hlen1 : page.length ≤ p1.length := by
            rw [hp1, ← hqlen]
            exact clog_timestamp_adjust_le ts q
          have hsome : (clog_set_statuses TRANSACTION_STATUS_COMMITTED segno blknum
              xids p1).isSome :=
            clog_set_statuses_isSome_mono TRANSACTION_STATUS_COMMITTED segno blknum xids
              page p1 (by rw [hs]; rfl) hlen1
          obtain ⟨out2, hout2⟩ := Option.isSome_iff_exists.mp hsome
          obtain ⟨hlen2, hget2⟩ :=
            clog_set_statuses_spec TRANSACTION_STATUS_COMMITTED segno blknum xids p1 out2 hout2
          have hout2eq : out2 = p1 := by
            apply List.ext_getElem?
            intro j
            rw [hget2 j]
            by_cases hj : j < BLCKSZ
            · have hpj : p1[j]? = (page[j]?).map
                  (fun b => byteAfter TRANSACTION_STATUS_COMMITTED xids j b) := by
                rw [hp1, clog_timestamp_adjust_getElem ts q j hj, hqget j]
              rw [hpj]
              cases page[j]? with
              | none => rfl
              | some b =>
                  simp only [Option.map_some']
                  rw [byteAfter_idem]
            · cases hpj : p1[j]? with
              | none => rfl
              | some b =>
                  simp only [Option.map_some']
                  rw [byteAfter_of_large TRANSACTION_STATUS_COMMITTED xids j
                    (Nat.le_of_not_lt hj)]
          rw [hout2, hout2eq]
          show Except.ok (clog_timestamp_adjust ts p1) = Except.ok p1
          rw [hp1, clog_timestamp_adjust_idem]

/-- Witness for C8 at a concrete CLOG page: on a 3-byte page the first
application sets the committed bits of xid 5 and the second returns the
result unchanged. -/
theorem clog_set_committed_idempotent_witness :
    apply_record_neon kmUnit () [0, 0, 0] (.clogSetCommitted [5] 7) = .ok [0, 4, 0] ∧
    apply_record_neon kmUnit () [0, 4, 0] (.clogSetCommitted [5] 7) = .ok [0, 4, 0] :=
  ⟨rfl, clog_set_committed_idempotent kmUnit () [5] 7 [0, 0, 0] [0, 4, 0] rfl⟩

/-- The page produced by applying ClogSetCommitted with xid 5 and timestamp
42 to an all-zero BLCKSZ page: the status byte of xid 5 is set and the
big-endian timestamp is appended. -/
def c10out : BytePage :=
  (List.replicate 8192 0).set (clogByteno 5) (clogStepByte TRANSACTION_STATUS_COMMITTED 5 0)
    ++ i64_to_be_bytes 42

theorem c10page_len : ((List.replicate 8192 (0:Nat)).set (clogByteno 5)
    (clogStepByte TRANSACTION_STATUS_COMMITTED 5 0)).length = BLCKSZ := by
  rw [List.length_set, List.length_replicate]
  rfl

theorem c10_eval :
    apply_record_neon kmUnit () (List.replicate 8192 0) (.clogSetCommitted [5] 42) =
      .ok c10out := by
  have hs : clog_set_statuses TRANSACTION_STATUS_COMMITTED 0 0 [5] (List.replicate 8192 0) =
      some ((List.replicate 8192 0).set (clogByteno 5)
        (clogStepByte TRANSACTION_STATUS_COMMITTED 5 0)) := by
    rw [clog_set_statuses, if_pos (by decide)]
    have hb : (List.replicate 8192 (0:Nat))[clogByteno 5]? = some 0 :=
      List.getElem?_replicate_of_lt (by decide)
    simp only [transaction_id_set_status, hb]
    rw [clog_set_statuses]
  have htr : clog_timestamp_truncate ((List.replicate 8192 0).set (clogByteno 5)
        (clogStepByte TRANSACTION_STATUS_COMMITTED 5 0)) =
      (List.replicate 8192 0).set (clogByteno 5)
        (clogStepByte TRANSACTION_STATUS_COMMITTED 5 0) := by
    rw [clog_timestamp_truncate, if_neg (by rw [c10page_len]; decide)]
  have hk : kmUnit.key_to_slru_block () = .ok (.Clog, 0, 0) := rfl
  rw [apply_record_neon]
  simp only [hk, hs]
  rw [if_pos (trivial : True)]
  rw [clog_timestamp_adjust, htr, if_pos c10page_len]
  rfl

theorem c10out_len : c10out.length = BLCKSZ + 8 := by
  rw [c10out, List.length_append, c10page_len, i64_to_be_bytes_length]

/-- C10: a ClogSetCommitted record applied in process to a page of exactly
BLCKSZ bytes yields a page of BLCKSZ + 8 bytes, the appended 8-byte
big-endian timestamp being part of the public result; a request_redo call
whose final (only) structured run contains such a record therefore returns
8200 bytes, not an 8 KiB page. -/
theorem clog_set_committed_appends_timestamp :
    (∀ (Key : Type) (km : KeyModel Key) (key : Key) (xids : List Nat) (ts : Int)
        (page out : BytePage), page.length = BLCKSZ →
        apply_record_neon km key page (.clogSetCommitted xids ts) = .ok out →
        out.length = BLCKSZ + 8) ∧
    (request_redo ⟨apply_batch_neon kmUnit (), fun _ _ => .error (.err .IoError)⟩
        (some (List.replicate 8192 0)) [(1, .clogSetCommitted [5] 42)]).map List.length
      = .ok (BLCKSZ + 8) ∧
    ¬ (BLCKSZ + 8 = BLCKSZ) := by
  refine ⟨?_, ?_, by decide⟩
  · intro Key km key xids ts page out hlen h
    rw [apply_record_neon] at h
    cases hk : km.key_to_slru_block key with
    | error e =>
        simp only [hk] at h
        exact absurd h (by simp)
    | ok v =>
        obtain ⟨kind, segno, blknum⟩ := v
        simp only [hk] at h
        by_cases hkind : kind = SlruKind.Clog
        case neg =>
          rw [if_neg hkind] at h
          exact absurd h (by simp)
        rw [if_pos hkind] at h
        cases hs : clog_set_statuses TRANSACTION_STATUS_COMMITTED segno blknum xids page with
        | none =>
            simp only [hs] at h
            exact absurd h (by simp)
        | some q =>
            simp only [hs] at h
            have hout : out = clog_timestamp_adjust ts q := (Except.ok.inj h).symm
            obtain ⟨hqlen, _⟩ := clog_set_statuses_spec TRANSACTION_STATUS_COMMITTED segno
              blknum xids page q hs
            rw [hout, clog_timestamp_adjust_length, if_pos (Or.inl (hqlen.trans hlen))]
  · have hreq : request_redo ⟨apply_batch_neon kmUnit (), fun _ _ => .error (.err .IoError)⟩
        (some (List.replicate 8192 0)) [(1, .clogSetCommitted [5] 42)] = .ok c10out := by
      rw [request_redo_eq_runs, apply_runs_spec_cons]
      have hstep : applyBatch
          (⟨apply_batch_neon kmUnit (), fun _ _ => .error (.err .IoError)⟩ :
            RedoAppliers BytePage)
          (can_apply_in_neon (NeonWalRecord.clogSetCommitted [5] 42))
          (some (List.replicate 8192 0)) [(1, .clogSetCommitted [5] 42)] =
          apply_batch_neon kmUnit () (some (List.replicate 8192 0))
            [(1, .clogSetCommitted [5] 42)] := rfl
      show applyBatch _ (can_apply_in_neon (NeonWalRecord.clogSetCommitted [5] 42))
        (some (List.replicate 8192 0)) [(1, .clogSetCommitted [5] 42)] = .ok c10out
      rw [hstep, apply_batch_neon, List.foldlM_cons, c10_eval]
      rfl
    rw [hreq]
    show Except.ok c10out.length = Except.ok (BLCKSZ + 8)
    rw [c10out_len]

/-- Witness for C10 at the all-zero BLCKSZ page. -/
theorem clog_set_committed_appends_timestamp_witness :
    (List.replicate 8192 (0:Nat)).length = BLCKSZ ∧ c10out.length = BLCKSZ + 8 :=
  ⟨by rw [List.length_replicate]; rfl, clog_set_committed_appends_timestamp.1 Unit kmUnit () [5] 42
    (List.replicate 8192 0) c10out (by rw [List.length_replicate]; rfl) c10_eval⟩

theorem cleanup_wal_connection (st : WalreceiverState) (now : Int) :
    (cleanup_old_candidates st now).wal_connection = st.wal_connection := rfl

theorem cleanup_wal_connect_timeout (st : WalreceiverState) (now : Int) :
    (cleanup_old_candidates st now).wal_connect_timeout = st.wal_connect_timeout := rfl

theorem cleanup_lagging_wal_timeout (st : WalreceiverState) (now : Int) :
    (cleanup_old_candidates st now).lagging_wal_timeout = st.lagging_wal_timeout := rfl

theorem cleanup_max_lsn_wal_lag (st : WalreceiverState) (now : Int) :
    (cleanup_old_candidates st now).max_lsn_wal_lag = st.max_lsn_wal_lag := rfl

/-- C2: while connected to safekeeper c, once the applicable candidate best
other than c with maximal commit_lsn has been selected, the rules apply in
order: keepalives older than wal_connect_timeout switch to best with reason
NoKeepAlives; otherwise an unfinished connection attempt yields None;
otherwise a defined status.commit_lsn lagging best.commit_lsn by at least
max_lsn_wal_lag switches to best with reason LaggingWal; and when no
applicable candidate other than c exists, the result is None.  The
max_lsn_wal_lag bound is a NonZeroU64 in the source, hence the positivity
hypothesis. -/
theorem next_connection_candidate_connected_rules
    (st : WalreceiverState) (now : Int) (conn : WalConnection)
    (hconn : st.wal_connection = some conn)
    (hlag : 0 < st.max_lsn_wal_lag) :
    (select_connection_candidate (cleanup_old_candidates st now) now (some conn.sk_id) =
        none →
      (next_connection_candidate st now).2 = none) ∧
    (∀ best,
      select_connection_candidate (cleanup_old_candidates st now) now (some conn.sk_id) =
        some best →
      (((st.wal_connect_timeout : Int) < now - conn.status.latest_connection_update →
        (next_connection_candidate st now).2 = some ⟨best.1, best.2.2,
          .NoKeepAlives (some conn.status.latest_connection_update) now
            st.wal_connect_timeout⟩) ∧
       (¬ ((st.wal_connect_timeout : Int) < now - conn.status.latest_connection_update) →
        conn.status.is_connected = false →
        (next_connection_candidate st now).2 = none) ∧
       (∀ cl, ¬ ((st.wal_connect_timeout : Int) < now - conn.status.latest_connection_update) →
        conn.status.is_connected = true →
        conn.status.commit_lsn = some cl →
        st.max_lsn_wal_lag ≤ best.2.1.commit_lsn - cl →
        (next_connection_candidate st now).2 = some ⟨best.1, best.2.2,
          .LaggingWal cl best.2.1.commit_lsn st.max_lsn_wal_lag⟩))) := by
  have hconn' : (cleanup_old_candidates st now).wal_connection = some conn := hconn
  constructor
  · intro hsel
    simp only [next_connection_candidate, hconn', hsel]
  · intro best hsel
    obtain ⟨bid, binfo, bconn⟩ := best
    refine ⟨?_, ?_, ?_⟩
    · intro h
      have hA : 0 ≤ now - conn.status.latest_connection_update ∧
          (st.wal_connect_timeout : Int) < now - conn.status.latest_connection_update :=
        ⟨le_of_lt (lt_of_le_of_lt (Int.natCast_nonneg _) h), h⟩
      simp only [next_connection_candidate, hconn', hsel, cleanup_wal_connect_timeout]
      rw [if_pos hA]
    · intro hno hdisc
      have hAneg : ¬ (0 ≤ now - conn.status.latest_connection_update ∧
          (st.wal_connect_timeout : Int) < now - conn.status.latest_connection_update) :=
        fun hA => hno hA.2
      simp only [next_connection_candidate, hconn', hsel, cleanup_wal_connect_timeout]
      rw [if_neg hAneg, if_pos hdisc]
    · intro cl hno hcon hcl hge
      have hAneg : ¬ (0 ≤ now - conn.status.latest_connection_update ∧
          (st.wal_connect_timeout : Int) < now - conn.status.latest_connection_update) :=
        fun hA => hno hA.2
      have hnotfalse : ¬ (conn.status.is_connected = false) := by
        simp [hcon]
      replace hge : st.max_lsn_wal_lag ≤ binfo.commit_lsn - cl := hge
      have hfe : cl ≤ binfo.commit_lsn := by
        by_contra hlt
        push_neg at hlt
        rw [Nat.sub_eq_zero_of_le (Nat.le_of_lt hlt)] at hge
        exact Nat.lt_irrefl 0 (Nat.lt_of_lt_of_le hlag hge)
      have hC : cl ≤ binfo.commit_lsn ∧
          st.max_lsn_wal_lag ≤ binfo.commit_lsn - cl := ⟨hfe, hge⟩
      simp only [next_connection_candidate, hconn', hsel, cleanup_wal_connect_timeout,
        cleanup_max_lsn_wal_lag, hcl]
      rw [if_neg hAneg, if_neg hnotfalse, if_pos hC]

/-- Broker info of a safekeeper used in connection-manager witnesses. -/
def c2info (safekeeper_id : NodeId) (cl : Nat) (cs : String) : SafekeeperTimelineInfo :=
  ⟨safekeeper_id, 0, 0, cl, 0, 0, 0, 0, cs⟩

/-- Fresh broker entry (latest update at instant 10000). -/
def c2cand (cl : Nat) (cs : String) : BrokerSkTimeline := ⟨c2info 1 cl cs, 10000⟩

/-- Connection status used in connection-manager witnesses. -/
def c2status (ic : Bool) (lcu : Int) (cl : Option Nat) : WalConnectionStatus :=
  ⟨ic, true, lcu, 10000, cl, cl⟩

/-- Connection to safekeeper 0 started at instant 9000. -/
def c2conn (stat : WalConnectionStatus) : WalConnection := ⟨9000, 0, stat, none⟩

/-- Manager state with 1-second timeouts and a 100-byte LSN lag bound. -/
def c2base (conn : WalConnection) (cands : List (NodeId × BrokerSkTimeline)) :
    WalreceiverState :=
  ⟨1000, 1000, 100, some conn, [], cands, 0⟩

/-- Witness for C2 at four concrete states: no other applicable candidate,
stale keepalives, awaiting connect, and lagging WAL. -/
theorem next_connection_candidate_connected_rules_witness :
    (next_connection_candidate
        (c2base (c2conn (c2status true 10000 (some 100000))) []) 10000).2 = none ∧
    (next_connection_candidate
        (c2base (c2conn (c2status true 7000 (some 100000))) [(1, c2cand 100000 "sk")])
        10000).2 =
      some ⟨1, "sk", .NoKeepAlives (some 7000) 10000 1000⟩ ∧
    (next_connection_candidate
        (c2base (c2conn (c2status false 10000 (some 100000))) [(1, c2cand 100000 "sk")])
        10000).2 = none ∧
    (next_connection_candidate
        (c2base (c2conn (c2status true 10000 (some 100000))) [(1, c2cand 100101 "adv")])
        10000).2 =
      some ⟨1, "adv", .LaggingWal 100000 100101 100⟩ :=
  ⟨(next_connection_candidate_connected_rules _ 10000
      (c2conn (c2status true 10000 (some 100000))) rfl (by decide)).1 (by decide),
   ((next_connection_candidate_connected_rules _ 10000
      (c2conn (c2status true 7000 (some 100000))) rfl (by decide)).2
        (1, c2info 1 100000 "sk", "sk") (by decide)).1 (by decide),
   ((next_connection_candidate_connected_rules _ 10000
      (c2conn (c2status false 10000 (some 100000))) rfl (by decide)).2
        (1, c2info 1 100000 "sk", "sk") (by decide)).2.1 (by decide) rfl,
   ((next_connection_candidate_connected_rules _ 10000
      (c2conn (c2status true 10000 (some 100000))) rfl (by decide)).2
        (1, c2info 1 100101 "adv", "adv") (by decide)).2.2 100000 (by decide) rfl rfl
        (by decide)⟩

/-- The retry-cooldown scenario of C3: the higher-LSN safekeeper 0 has a
pending retry one hour in the future, the lower-LSN safekeeper 1 has no
cooldown. -/
def c3state : WalreceiverState :=
  ⟨1000, 1000, 100, none, [(0, ⟨some 3600000, 15⟩)],
   [(0, ⟨c2info 0 200 "sk-high", 0⟩), (1, ⟨c2info 1 100 "sk-low", 0⟩)], 0⟩

/-- C3: with no existing connection, the result is the applicable candidate
with maximum commit_lsn, reason NoExistingConnection, where applicable means
non-empty connection string, commit_lsn different from INVALID and no
next_retry_at in the future; if no entry is applicable the result is None;
and in particular a candidate with higher commit_lsn but a future
next_retry_at is excluded, so the lower-LSN candidate with no pending
cooldown is selected. -/
theorem next_connection_candidate_no_connection_rules
    (st : WalreceiverState) (now : Int) (hconn : st.wal_connection = none) :
    ((select_connection_candidate (cleanup_old_candidates st now) now none = none →
      (next_connection_candidate st now).2 = none) ∧
    (∀ c, select_connection_candidate (cleanup_old_candidates st now) now none = some c →
      (next_connection_candidate st now).2 = some ⟨c.1, c.2.2, .NoExistingConnection⟩ ∧
      c ∈ applicable_connection_candidates (cleanup_old_candidates st now) now ∧
      ∀ e ∈ applicable_connection_candidates (cleanup_old_candidates st now) now,
        e.2.1.commit_lsn ≤ c.2.1.commit_lsn) ∧
    (applicable_connection_candidates (cleanup_old_candidates st now) now ≠ [] →
      ∃ c, (next_connection_candidate st now).2 = some c ∧
        c.reason = .NoExistingConnection)) ∧
    (next_connection_candidate c3state 0).2 = some ⟨1, "sk-low", .NoExistingConnection⟩ := by
  have hconn' : (cleanup_old_candidates st now).wal_connection = none := hconn
  have hselmax : select_connection_candidate (cleanup_old_candidates st now) now none =
      maxByKeyLast (fun c : NodeId × SafekeeperTimelineInfo × String => c.2.1.commit_lsn)
        (applicable_connection_candidates (cleanup_old_candidates st now) now) := by
    rw [select_connection_candidate,
      List.filter_eq_self.mpr (fun a _ => by simp)]
  refine ⟨⟨?_, ?_, ?_⟩, by decide⟩
  · intro hsel
    simp only [next_connection_candidate, hconn', hsel]
  · intro c hsel
    obtain ⟨cid, cinfo, cconn⟩ := c
    have hmax := maxByKeyLast_spec (fun c : NodeId × SafekeeperTimelineInfo × String => c.2.1.commit_lsn) _ _ (hselmax ▸ hsel)
    exact ⟨by simp only [next_connection_candidate, hconn', hsel], hmax.1, hmax.2⟩
  · intro hne
    obtain ⟨c, hc⟩ := Option.isSome_iff_exists.mp
      (maxByKeyLast_isSome (fun c : NodeId × SafekeeperTimelineInfo × String => c.2.1.commit_lsn) _ hne)
    obtain ⟨cid, cinfo, cconn⟩ := c
    have hsel : select_connection_candidate (cleanup_old_candidates st now) now none =
        some (cid, cinfo, cconn) := by rw [hselmax]; exact hc
    exact ⟨⟨cid, cconn, .NoExistingConnection⟩,
      by simp only [next_connection_candidate, hconn', hsel], rfl⟩

/-- Witness for C3 at the retry-cooldown state: safekeeper 1 is selected,
belongs to the applicable set, and dominates it by commit_lsn. -/
theorem next_connection_candidate_no_connection_rules_witness :
    (next_connection_candidate c3state 0).2 = some ⟨1, "sk-low", .NoExistingConnection⟩ ∧
    (1, c2info 1 100 "sk-low", "sk-low") ∈
      applicable_connection_candidates (cleanup_old_candidates c3state 0) 0 ∧
    ∀ e ∈ applicable_connection_candidates (cleanup_old_candidates c3state 0) 0,
      e.2.1.commit_lsn ≤ 100 :=
  ⟨((next_connection_candidate_no_connection_rules c3state 0 rfl).1.2.1
      (1, c2info 1 100 "sk-low", "sk-low") (by decide)).1,
   ((next_connection_candidate_no_connection_rules c3state 0 rfl).1.2.1
      (1, c2info 1 100 "sk-low", "sk-low") (by decide)).2.1,
   ((next_connection_candidate_no_connection_rules c3state 0 rfl).1.2.1
      (1, c2info 1 100 "sk-low", "sk-low") (by decide)).2.2⟩

/-- C4: dropping a connection sets the safekeeper's next_retry_at to
started_at plus the backoff in force before the update (a fresh record
starts at the minimal 0.1 s backoff) and replaces the backoff with
clamp(previous * 1.5, 0.1 s, 15 s); consequently the stored backoff always
lies within [0.1 s, 15 s] after the update. -/
theorem drop_old_connection_backoff
    (st : WalreceiverState) (conn : WalConnection)
    (hconn : st.wal_connection = some conn) :
    alistLookup (drop_old_connection st).wal_connection_retries conn.sk_id =
      some ⟨some (conn.started_at + secondsToMillis
          ((alistLookup st.wal_connection_retries conn.sk_id).getD
            ⟨none, WALCONNECTION_RETRY_MIN_BACKOFF_SECONDS⟩).retry_duration_seconds),
        max (min (((alistLookup st.wal_connection_retries conn.sk_id).getD
            ⟨none, WALCONNECTION_RETRY_MIN_BACKOFF_SECONDS⟩).retry_duration_seconds *
              WALCONNECTION_RETRY_BACKOFF_MULTIPLIER)
            WALCONNECTION_RETRY_MAX_BACKOFF_SECONDS)
          WALCONNECTION_RETRY_MIN_BACKOFF_SECONDS⟩ ∧
    ∀ r, alistLookup (drop_old_connection st).wal_connection_retries conn.sk_id = some r →
      WALCONNECTION_RETRY_MIN_BACKOFF_SECONDS ≤ r.retry_duration_seconds ∧
      r.retry_duration_seconds ≤ WALCONNECTION_RETRY_MAX_BACKOFF_SECONDS := by
  have h1 : alistLookup (drop_old_connection st).wal_connection_retries conn.sk_id =
      some ⟨some (conn.started_at + secondsToMillis
          ((alistLookup st.wal_connection_retries conn.sk_id).getD
            ⟨none, WALCONNECTION_RETRY_MIN_BACKOFF_SECONDS⟩).retry_duration_seconds),
        max (min (((alistLookup st.wal_connection_retries conn.sk_id).getD
            ⟨none, WALCONNECTION_RETRY_MIN_BACKOFF_SECONDS⟩).retry_duration_seconds *
              WALCONNECTION_RETRY_BACKOFF_MULTIPLIER)
            WALCONNECTION_RETRY_MAX_BACKOFF_SECONDS)
          WALCONNECTION_RETRY_MIN_BACKOFF_SECONDS⟩ := by
    rw [drop_old_connection, hconn]
    exact alistLookup_insert_self st.wal_connection_retries conn.sk_id _
  refine ⟨h1, fun r hr => ?_⟩
  have hrv : r = ⟨some (conn.started_at + secondsToMillis
      ((alistLookup st.wal_connection_retries conn.sk_id).getD
        ⟨none, WALCONNECTION_RETRY_MIN_BACKOFF_SECONDS⟩).retry_duration_seconds),
    max (min (((alistLookup st.wal_connection_retries conn.sk_id).getD
        ⟨none, WALCONNECTION_RETRY_MIN_BACKOFF_SECONDS⟩).retry_duration_seconds *
          WALCONNECTION_RETRY_BACKOFF_MULTIPLIER)
        WALCONNECTION_RETRY_MAX_BACKOFF_SECONDS)
      WALCONNECTION_RETRY_MIN_BACKOFF_SECONDS⟩ := by
    rw [h1] at hr
    exact (Option.some_inj.mp hr).symm
  rw [hrv]
  refine ⟨le_max_right _ _, max_le (min_le_right _ _) (by
    rw [WALCONNECTION_RETRY_MIN_BACKOFF_SECONDS, WALCONNECTION_RETRY_MAX_BACKOFF_SECONDS]
    norm_num)⟩

/-- Manager state for the C4 witness: connected to safekeeper 7 with no
retry history. -/
def c4state : WalreceiverState :=
  ⟨1000, 1000, 100, some ⟨1000, 7, c2status true 0 none, none⟩, [], [], 0⟩

/-- Witness for C4: the fresh retry record gets next_retry_at 1000 + 100 ms
and backoff 0.15 s, inside the clamp bounds. -/
theorem drop_old_connection_backoff_witness :
    alistLookup (drop_old_connection c4state).wal_connection_retries 7 =
      some ⟨some 1100, 3 / 20⟩ ∧
    WALCONNECTION_RETRY_MIN_BACKOFF_SECONDS ≤ (3 / 20 : ℚ) ∧
    (3 / 20 : ℚ) ≤ WALCONNECTION_RETRY_MAX_BACKOFF_SECONDS := by
  have h := drop_old_connection_backoff c4state ⟨1000, 7, c2status true 0 none, none⟩ rfl
  have hprev : (alistLookup c4state.wal_connection_retries 7).getD
      ⟨none, WALCONNECTION_RETRY_MIN_BACKOFF_SECONDS⟩ =
      ⟨none, WALCONNECTION_RETRY_MIN_BACKOFF_SECONDS⟩ := rfl
  have hfloor : secondsToMillis WALCONNECTION_RETRY_MIN_BACKOFF_SECONDS = 100 := by
    rw [secondsToMillis, WALCONNECTION_RETRY_MIN_BACKOFF_SECONDS,
      show ((1:ℚ)/10) * 1000 = 100 by norm_num]
    simp
  have hclamp : max (min (WALCONNECTION_RETRY_MIN_BACKOFF_SECONDS *
      WALCONNECTION_RETRY_BACKOFF_MULTIPLIER) WALCONNECTION_RETRY_MAX_BACKOFF_SECONDS)
      WALCONNECTION_RETRY_MIN_BACKOFF_SECONDS = 3 / 20 := by
    rw [WALCONNECTION_RETRY_MIN_BACKOFF_SECONDS, WALCONNECTION_RETRY_MAX_BACKOFF_SECONDS,
      WALCONNECTION_RETRY_BACKOFF_MULTIPLIER,
      min_eq_left (by norm_num), max_eq_left (by norm_num)]
    norm_num
  have h1 : alistLookup (drop_old_connection c4state).wal_connection_retries 7 =
      some ⟨some 1100, 3 / 20⟩ := by
    rw [h.1]
    dsimp only
    rw [hprev]
    dsimp only
    rw [hfloor, hclamp]
    norm_num
  exact ⟨h1, (h.2 _ h1).1, (h.2 _ h1).2⟩

/-- C5: next_connection_candidate first purges every broker entry whose
latest_update is at least lagging_wal_timeout old, removing the retry record
of each purged node id, so that its selection state holds only entries
updated within lagging_wal_timeout. -/
theorem cleanup_purges_stale_candidates (st : WalreceiverState) (now : Int) :
    (∀ e ∈ st.wal_stream_candidates,
      (st.lagging_wal_timeout : Int) ≤ now - e.2.latest_update →
      e ∉ (cleanup_old_candidates st now).wal_stream_candidates ∧
      ∀ r ∈ (cleanup_old_candidates st now).wal_connection_retries, ¬ r.1 = e.1) ∧
    (∀ e ∈ (cleanup_old_candidates st now).wal_stream_candidates,
      ¬ ((0:Int) ≤ now - e.2.latest_update ∧
         (st.lagging_wal_timeout : Int) ≤ now - e.2.latest_update)) ∧
    (next_connection_candidate st now).1.wal_stream_candidates =
      (cleanup_old_candidates st now).wal_stream_candidates ∧
    (next_connection_candidate st now).1.wal_connection_retries =
      (cleanup_old_candidates st now).wal_connection_retries := by
  refine ⟨?_, ?_, (next_connection_candidate_maps st now).1,
    (next_connection_candidate_maps st now).2⟩
  · intro e he hstale
    have hstaleB : candidateIsStale st now e.2 = true := by
      simp only [candidateIsStale, decide_eq_true_eq]
      exact ⟨le_trans (Int.natCast_nonneg _) hstale, hstale⟩
    constructor
    · intro hmem
      have := (List.mem_filter.mp hmem).2
      simp [hstaleB] at this
    · intro r hr heq
      have hpred := (List.mem_filter.mp hr).2
      simp only [decide_eq_true_eq] at hpred
      apply hpred
      rw [heq]
      exact List.mem_map.mpr ⟨e, List.mem_filter.mpr ⟨he, hstaleB⟩, rfl⟩
  · intro e he hcond
    have := (List.mem_filter.mp he).2
    simp only [candidateIsStale, decide_eq_true_eq] at this
    exact this hcond

/-- Manager state for the C5 witness: safekeeper 3 last updated 5 seconds in
the past against a 1-second lagging-WAL timeout, with a retry record. -/
def c5state : WalreceiverState :=
  ⟨1000, 1000, 100, none, [(3, ⟨none, 1 / 10⟩)], [(3, ⟨c2info 3 50 "sk", -5000⟩)], 0⟩

/-- Witness for C5: the stale entry of safekeeper 3 is purged together with
its retry record. -/
theorem cleanup_purges_stale_candidates_witness :
    ((3:NodeId), (⟨c2info 3 50 "sk", -5000⟩ : BrokerSkTimeline)) ∉
      (cleanup_old_candidates c5state 0).wal_stream_candidates ∧
    ∀ r ∈ (cleanup_old_candidates c5state 0).wal_connection_retries, ¬ r.1 = 3 :=
  (cleanup_purges_stale_candidates c5state 0).1 (3, ⟨c2info 3 50 "sk", -5000⟩)
    (by decide) (by decide)

/-- C6: when the manager is connected to a safekeeper and the streaming
task's status update reports has_processed_wal, the retry record of that
safekeeper's node id is removed from the retry map. -/
theorem progress_update_clears_retries
    (st : WalreceiverState) (conn : WalConnection) (status : WalConnectionStatus)
    (hconn : st.wal_connection = some conn)
    (hwal : status.has_processed_wal = true) :
    alistLookup (handle_progress_update st status).wal_connection_retries conn.sk_id =
      none := by
  rw [handle_progress_update, hconn]
  show alistLookup (if status.has_processed_wal = true then
      alistRemove st.wal_connection_retries conn.sk_id
    else st.wal_connection_retries) conn.sk_id = none
  rw [if_pos hwal]
  exact alistLookup_remove_self _ _

/-- Witness for C6: a progress update with has_processed_wal clears the
retry record of the connected safekeeper 7. -/
theorem progress_update_clears_retries_witness :
    alistLookup (handle_progress_update
      ⟨1000, 1000, 100, some ⟨0, 7, c2status true 0 none, none⟩, [(7, ⟨none, 1 / 10⟩)], [], 0⟩
      (c2status true 0 none)).wal_connection_retries 7 = none :=
  progress_update_clears_retries _ ⟨0, 7, c2status true 0 none, none⟩ (c2status true 0 none)
    rfl rfl

/-- C9: stop_process on an absent pidfile, or on one that exists but is not
locked by any process, returns success without sending any signal to any
pid and without deleting the pidfile. -/
theorem stop_process_unheld_pidfile_noop (immediate : Bool) (w : StopWorld) (pid : Nat) :
    (w.read_result = .ok .NotExist → stop_process immediate w = (.ok (), [])) ∧
    (w.read_result = .ok (.NotHeldByAnyProcess pid) →
      stop_process immediate w = (.ok (), [])) := by
  constructor
  · intro h
    rw [stop_process, h]
  · intro h
    rw [stop_process, h]

/-- World for the C9 witness with an absent pidfile. -/
def c9worldA : StopWorld := ⟨.ok .NotExist, fun _ _ => .ok, fun _ _ => .ok⟩

/-- World for the C9 witness with a pidfile held by no process. -/
def c9worldB : StopWorld := ⟨.ok (.NotHeldByAnyProcess 42), fun _ _ => .ok, fun _ _ => .ok⟩

/-- Witness for C9 at both unheld-pidfile worlds. -/
theorem stop_process_unheld_pidfile_noop_witness :
    stop_process false c9worldA = (.ok (), []) ∧
    stop_process true c9worldB = (.ok (), []) :=
  ⟨(stop_process_unheld_pidfile_noop false c9worldA 0).1 rfl,
   (stop_process_unheld_pidfile_noop true c9worldB 42).2 rfl⟩

end Neon
